import Mathlib

/-!
Shallow embedding of the GPU texture-capture pipeline of the `bevy-basics`
repository, together with proofs settling the specification claims.

The embedded code comes from:
* `src/gpu_copy/src/utils.rs` — `next_power_of_2`, `calculate_grid_dimensions`,
  `ImageWrapper` (`new`, `update_data`), `setup_render_target`;
* `src/gpu_copy/src/plugin.rs` — `ExportImage::new`, `save_buffer_as_resource`
  (buffer mapping, padding strip, registry publish);
* `src/episode-5/src/vision.rs` — `VisionView::get_view` over the
  `bevy_headless` registry (`Vec<ExportImage>`).

Machine integers are modelled as `Nat` with an explicit `% 2^32` (`u32` casts
and multiplications) or `% 2^64` (the `u64` frame counter) at the points where
the Rust code can wrap.  Fallible operations (slice indexing, `unwrap`,
`copy_from_slice`) are modelled with `Option`, `none` standing for a panic.
-/

namespace BevyBasics

/-- Model of Rust's `uN::next_power_of_two` (smallest power of two greater
than or equal to the argument, with `0 → 1`, per the Rust standard library
documentation), written by structural recursion so that it evaluates. -/
def pow2ge : Nat → Nat
  | 0 => 1
  | n + 1 => if n + 1 ≤ pow2ge n then pow2ge n else 2 * pow2ge n

/-- Fueled helper for `trailingZeros`. -/
def tzAux : Nat → Nat → Nat
  | 0, _ => 0
  | fuel + 1, n => if n % 2 = 1 ∨ n = 0 then 0 else 1 + tzAux fuel (n / 2)

/-- Model of Rust's `uN::trailing_zeros` on nonzero arguments. -/
def trailingZeros (n : Nat) : Nat := tzAux n n

/-- `next_power_of_2` from `src/gpu_copy/src/utils.rs` (the `bevy_headless`
copy has the same body): `2_usize.pow((n - 1).next_power_of_two().trailing_zeros())`
for `n ≠ 0`, and `1` for `n = 0`. -/
def next_power_of_2 (n : Nat) : Nat :=
  if n = 0 then 1 else 2 ^ trailingZeros (pow2ge (n - 1))

/-- Fueled search for the least `c ≥ candidate` with `n ≤ c * c`. -/
def sqrtCeilGo (n : Nat) : Nat → Nat → Nat
  | 0, c => c
  | fuel + 1, c => if n ≤ c * c then c else sqrtCeilGo n fuel (c + 1)

/-- Model of `(num_views as f64).sqrt().ceil() as u32` from
`calculate_grid_dimensions`: the least `c` with `n ≤ c * c`, i.e. `⌈√n⌉`.
IEEE-754 double `sqrt` is correctly rounded, and for `n < 2^32` the rounded
square root never crosses an integer boundary, so the `f64` computation in the
source agrees with this integer function on the whole `u32` range. -/
def findCeilSqrt (n : Nat) : Nat := sqrtCeilGo n n 0

/-- Model of `(num_views as f64 / cols as f64).ceil() as u32`: exact ceiling
division (the `f64` quotient of two `u32` values is exact enough that its
ceiling equals the rational ceiling; `0 / 0` gives `NaN`, and `NaN as u32 = 0`). -/
def ceilDivFloat (n c : Nat) : Nat := if c = 0 then 0 else (n + c - 1) / c

/-- The `while cols * (rows - 1) >= num_views { rows -= 1 }` loop of
`calculate_grid_dimensions`, recursing on `rows`. -/
def reduceRows (cols nv : Nat) : Nat → Nat
  | 0 => 0
  | r + 1 => if nv ≤ cols * r then reduceRows cols nv r else r + 1

/-- `cols` as chosen by `calculate_grid_dimensions`. -/
def gridCols (num_views : Nat) : Nat := findCeilSqrt num_views

/-- `rows` as chosen by `calculate_grid_dimensions` (naive ceiling division,
then the reduction loop). -/
def gridRows (num_views : Nat) : Nat :=
  reduceRows (gridCols num_views) num_views
    (ceilDivFloat num_views (gridCols num_views))

/-- `2^32`, the `u32` wrap-around modulus. -/
def u32Mod : Nat := 4294967296

/-- `2^64`, the `u64` wrap-around modulus. -/
def u64Mod : Nat := 18446744073709551616

/-- The `n & (n - 1) == 0` power-of-two test used in
`calculate_grid_dimensions` (for `n = 0` the release-mode wrap of `0 - 1`
makes the test succeed, which the saturating `Nat` subtraction reproduces). -/
def isPow2Bits (n : Nat) : Bool := Nat.land n (n - 1) == 0

/-- `calculate_grid_dimensions` from `src/gpu_copy/src/utils.rs`.  `u32`
multiplications wrap modulo `2^32`; the `usize` texture dimensions never wrap
on reachable inputs.  Returns `((texture_width, texture_height), positions)`. -/
def calculate_grid_dimensions (view_width view_height num_views : Nat) :
    (Nat × Nat) × List (Nat × Nat) :=
  let cols := gridCols num_views
  let rows := gridRows num_views
  let initial_texture_width := (cols * view_width) % u32Mod
  let initial_texture_height := (rows * view_height) % u32Mod
  let texture_width :=
    if isPow2Bits initial_texture_width then initial_texture_width
    else next_power_of_2 initial_texture_width
  let texture_height :=
    if isPow2Bits initial_texture_height then initial_texture_height
    else next_power_of_2 initial_texture_height
  let positions := (List.range num_views).map fun i =>
    (((i % cols) * view_width) % u32Mod, ((i / cols) * view_height) % u32Mod)
  ((texture_width, texture_height), positions)

/-- `ImageWrapper` from `src/gpu_copy/src/utils.rs`: an RGBA8 `ImageBuffer`
(width, height, and its backing byte vector of length `4 * width * height`)
plus the published `frame_id`. -/
structure ImageWrapper where
  width : Nat
  height : Nat
  img_buffer : List Nat
  frame_id : Nat
  deriving DecidableEq, Repr

/-- `ImageWrapper::new`: `ImageBuffer::new(size.width, size.height)` allocates
a zero-filled RGBA8 buffer, and `frame_id` starts at `0`.  `ExportImage::new`
in `src/gpu_copy/src/plugin.rs` wraps exactly this value. -/
def ImageWrapper.new (width height : Nat) : ImageWrapper :=
  { width := width, height := height
    img_buffer := List.replicate (4 * width * height) 0
    frame_id := 0 }

/-- `ImageWrapper::update_data`: sets `frame_id` and overwrites the pixel
bytes with `copy_from_slice`, which panics (`none`) unless the source slice
has exactly the length of the destination buffer. -/
def ImageWrapper.update_data (w : ImageWrapper) (frame_id : Nat)
    (image_bytes : List Nat) : Option ImageWrapper :=
  if image_bytes.length = w.img_buffer.length then
    some { w with frame_id := frame_id, img_buffer := image_bytes }
  else
    none

/-- The `ExportedImages` registry of `src/gpu_copy/src/plugin.rs`:
`HashMap<String, ExportImage>`, modelled as an association list. -/
abbrev Registry := List (String × ImageWrapper)

/-- `HashMap` lookup (`get_mut` / indexing by name). -/
def lookupReg : Registry → String → Option ImageWrapper
  | [], _ => none
  | (k, v) :: r, n => if k = n then some v else lookupReg r n

/-- `HashMap::insert`: replace the entry with the given key, or append it. -/
def insertReg : Registry → String → ImageWrapper → Registry
  | [], n, w => [(n, w)]
  | (k, v) :: r, n, w =>
      if k = n then (n, w) :: r else (k, v) :: insertReg r n w

/-- Registry effect of `setup_render_target` in `src/gpu_copy/src/utils.rs`:
compute the atlas size, build `ExportImage::new(size)` (the `usize → u32`
casts of the `Extent3d` wrap modulo `2^32`), insert it under `target_name`,
and return the viewport offsets. -/
def setup_render_target (target_name : String) (exported_images : Registry)
    (viewport_size : Nat × Nat) (num_views : Nat) :
    Registry × List (Nat × Nat) :=
  let r := calculate_grid_dimensions viewport_size.1 viewport_size.2 num_views
  let export_image := ImageWrapper.new (r.1.1 % u32Mod) (r.1.2 % u32Mod)
  (insertReg exported_images target_name export_image, r.2)

/-- The per-channel GPU data reaching `save_buffer_as_resource` in one frame:
the outcome of the asynchronous buffer map (`none` models a map error, which
the code `unwrap`s) and the strides recorded in `GpuImageExport`. -/
structure SourceInput where
  mapResult : Option (List Nat)
  bytes_per_row : Nat
  padded_bytes_per_row : Nat
  deriving DecidableEq, Repr

/-- One `ImageExportBundle` as seen by `save_buffer_as_resource`: the channel
name from `ImageExportSettings` and, when `sources.get(source_handle)`
succeeds, the prepared GPU source. -/
structure BundleInput where
  name : String
  source : Option SourceInput
  deriving DecidableEq, Repr

/-- `slice::chunks(size)` (the final chunk may be shorter). -/
def chunks (size : Nat) (l : List Nat) : List (List Nat) :=
  if h : l = [] ∨ size = 0 then []
  else l.take size :: chunks size (l.drop size)
termination_by l.length
decreasing_by
  simp only [not_or] at h
  have h1 : 0 < l.length := List.length_pos.mpr h.1
  have h2 : 0 < size := Nat.pos_of_ne_zero h.2
  simpa using Nat.sub_lt h1 h2

/-- `&padded_row[..bytes_per_row]`: panics (`none`) when the row is shorter
than `bytes_per_row`. -/
def takeRow (bytes_per_row : Nat) (row : List Nat) : Option (List Nat) :=
  if bytes_per_row ≤ row.length then some (row.take bytes_per_row) else none

/-- Option-valued map over a list, `none` as soon as one element fails. -/
def mapMOpt (f : α → Option β) : List α → Option (List β)
  | [] => some []
  | a :: l => (f a).bind fun b => (mapMOpt f l).map fun bs => b :: bs

/-- The padding-strip step of `save_buffer_as_resource`: when
`bytes_per_row != padded_bytes_per_row`, iterate the mapped bytes in chunks of
`padded_bytes_per_row` and keep the first `bytes_per_row` bytes of each chunk;
otherwise pass the buffer through unchanged. -/
def strip_padding (bytes_per_row padded_bytes_per_row : Nat)
    (image_bytes : List Nat) : Option (List Nat) :=
  if bytes_per_row ≠ padded_bytes_per_row then
    (mapMOpt (takeRow bytes_per_row)
        (chunks padded_bytes_per_row image_bytes)).map List.flatten
  else
    some image_bytes

/-- The first loop of `save_buffer_as_resource`: one `map_buffer` request per
bundle whose source resolves, collecting the completion outcomes in bundle
order. -/
def futuresOf (bundles : List BundleInput) : List (Option (List Nat)) :=
  bundles.filterMap fun b => b.source.map fun s => s.mapResult

/-- Body of the second loop of `save_buffer_as_resource` for one
`futures.zip(export_bundles)` pair: `block_on(future).unwrap().unwrap()`
(map error ⇒ panic), re-resolve the source, strip padding, and publish into
the registry entry named by the bundle's settings (if any). -/
def processPair (frame_id : Nat) (reg : Registry)
    (p : Option (List Nat) × BundleInput) : Option Registry :=
  match p.1 with
  | none => none
  | some image_bytes =>
    match p.2.source with
    | none => some reg
    | some s =>
      (strip_padding s.bytes_per_row s.padded_bytes_per_row image_bytes).bind
        fun bytes =>
          match lookupReg reg p.2.name with
          | none => some reg
          | some w =>
              (w.update_data frame_id bytes).map fun w' =>
                insertReg reg p.2.name w'

/-- Sequential processing of the zipped pairs; a panic anywhere aborts. -/
def foldProcess (frame_id : Nat) :
    Registry → List (Option (List Nat) × BundleInput) → Option Registry
  | reg, [] => some reg
  | reg, p :: rest =>
      (processPair frame_id reg p).bind fun reg' =>
        foldProcess frame_id reg' rest

/-- `save_buffer_as_resource` from `src/gpu_copy/src/plugin.rs`: increment the
`u64` frame counter, return immediately if the registry is empty, otherwise
map every resolvable buffer and process the completions in order.  The result
is `(new counter, registry, number of map_buffer calls)`, or `none` on panic. -/
def save_buffer_as_resource (frame_counter : Nat)
    (export_bundles : List BundleInput) (exported_images : Registry) :
    Option (Nat × Registry × Nat) :=
  let frame_id := (frame_counter + 1) % u64Mod
  match exported_images with
  | [] => some (frame_id, [], 0)
  | reg =>
      let pairs := (futuresOf export_bundles).zip export_bundles
      (foldProcess frame_id reg pairs).map fun reg' =>
        (frame_id, reg', (futuresOf export_bundles).length)

/-- Runs `save_buffer_as_resource` over successive frames, threading the
`Local<u64>` counter and the registry. -/
def runFrames : Nat → Registry → List (List BundleInput) →
    Option (Nat × Registry)
  | counter, reg, [] => some (counter, reg)
  | counter, reg, f :: fs =>
      (save_buffer_as_resource counter f reg).bind fun r =>
        runFrames r.1 r.2.1 fs

/-- `ViewParams` from `src/episode-5/src/vision.rs`. -/
structure ViewParams where
  x : Nat
  y : Nat
  width : Nat
  height : Nat
  deriving DecidableEq, Repr

/-- One `bevy_headless::ExportImage`: an RGBA8 `ImageBuffer` (no frame id) as
stored in the `Vec<ExportImage>` registry that episode-5's `VisionView` reads. -/
structure HeadlessImage where
  width : Nat
  height : Nat
  data : List Nat
  deriving DecidableEq, Repr

/-- `image.view(x, y, w, h).to_image()`: the cropped sub-rectangle, row by
row, four bytes per pixel. -/
def cropImage (img : HeadlessImage) (x y w h : Nat) : List Nat :=
  ((List.range h).map fun ry =>
    (img.data.drop (4 * ((y + ry) * img.width + x))).take (4 * w)).flatten

/-- `VisionView::get_view` from `src/episode-5/src/vision.rs`: locks the
registry, indexes entry `0` (panicking, `none`, when the `Vec` is empty), and
crops the requested view (`view` panics when the rectangle leaves the image). -/
def get_view (locked_images : List HeadlessImage) (params : ViewParams) :
    Option (List Nat) :=
  match locked_images with
  | [] => none
  | image :: _ =>
      if params.x + params.width ≤ image.width ∧
          params.y + params.height ≤ image.height then
        some (cropImage image params.x params.y params.width params.height)
      else
        none

/-- Spec-side description of the padding strip (from the spec's words): for
each of the `height` rows in order, the first `bytes_per_row` bytes of that
row's `padded_bytes_per_row`-byte chunk. -/
def unpadSpec (bytes_per_row padded_bytes_per_row : Nat) :
    Nat → List Nat → List Nat
  | 0, _ => []
  | h + 1, bytes =>
      bytes.take bytes_per_row ++
        unpadSpec bytes_per_row padded_bytes_per_row h
          (bytes.drop padded_bytes_per_row)

/-! ### Helper lemmas -/

theorem lookupReg_insertReg_self (reg : Registry) (n : String)
    (w : ImageWrapper) : lookupReg (insertReg reg n w) n = some w := by
  induction reg with
  | nil => simp [insertReg, lookupReg]
  | cons p r ih =>
      obtain ⟨k, v⟩ := p
      by_cases h : k = n <;> simp [insertReg, lookupReg, h, ih]

theorem lookupReg_insertReg_other (reg : Registry) (n n' : String)
    (w : ImageWrapper) (h : n ≠ n') :
    lookupReg (insertReg reg n w) n' = lookupReg reg n' := by
  induction reg with
  | nil => simp [insertReg, lookupReg, h]
  | cons p r ih =>
      obtain ⟨k, v⟩ := p
      by_cases hk : k = n
      · subst hk
        simp [insertReg, lookupReg, h]
      · simp [insertReg, lookupReg, hk, ih]

theorem lookupReg_singleton (k : String) (v : ImageWrapper) (n : String)
    (w : ImageWrapper) (h : lookupReg [(k, v)] n = some w) : w = v := by
  by_cases hk : k = n <;> simp [lookupReg, hk] at h
  exact h.symm

/-! ### C1 — `next_power_of_2` -/

/-- Claim C1: `next_power_of_2(0) = 1`, and for every `n > 0` the function
returns the smallest power of two `≥ n`.  The code computes
`2^(trailing_zeros((n-1).next_power_of_two()))`, the smallest power of two
`≥ n - 1`; evaluating at the failing input `n = 2` gives `1`, which is
smaller than `2`, refuting the `n > 0` half of the claim (the `n = 0` half
holds). -/
theorem next_power_of_2_bug_eval :
    next_power_of_2 0 = 1 ∧ next_power_of_2 2 = 1 ∧ next_power_of_2 2 < 2 := by
  decide

/-! ### C2 — Layout Calculator containment -/

/-- Claim C2 (evaluation at a failing input): for
`view_width = 3, view_height = 2, num_views = 1` the code returns the atlas
`(2, 2)` with the single viewport at `(0, 0)` of size `3 × 2`, whose right
edge `0 + 3` exceeds the atlas width `2` — the viewport does not lie inside
the returned atlas, refuting the containment part of the claim. -/
theorem calculate_grid_dimensions_bug_eval :
    calculate_grid_dimensions 3 2 1 = ((2, 2), [(0, 0)]) ∧ 2 < 0 + 3 := by
  decide

/-! ### C3 — `get_view` on an unknown channel -/

/-- Claim C3 (counterexample): with the registry empty (capture not yet
initialized), `get_view` does not return a placeholder image — it indexes
`locked_images[0]` out of bounds and panics (`none`). -/
theorem get_view_empty_counterexample :
    get_view [] ⟨0, 0, 1, 1⟩ = none := rfl

/-- Claim C3 (amended): for every requested region, `get_view` on an empty
registry panics (index `0` out of bounds) instead of returning a defined
placeholder image with `frame_id = 0`. -/
theorem get_view_empty_panics (params : ViewParams) :
    get_view [] params = none := rfl

/-! ### C8 — `update_data` totality under the length precondition -/

/-- Claim C8: when the unpadded byte vector has exactly the destination
snapshot's byte length (`4 * atlas_width * atlas_height`), the in-place
publish copy `ImageWrapper::update_data` cannot panic and stores the new
bytes and frame id; a length mismatch makes the `copy_from_slice` panic
(`none`), i.e. it is not handled at runtime. -/
theorem update_data_total_iff_length (aw ah fid : Nat) (w : ImageWrapper)
    (bytes : List Nat) (hw : w.img_buffer.length = 4 * aw * ah) :
    (bytes.length = 4 * aw * ah →
      w.update_data fid bytes =
        some { w with frame_id := fid, img_buffer := bytes }) ∧
    (bytes.length ≠ 4 * aw * ah → w.update_data fid bytes = none) := by
  constructor <;> intro h <;> simp [ImageWrapper.update_data, hw, h]

/-- Witness for C8 at a concrete input (`1 × 1` atlas, matching 4-byte
source). -/
theorem update_data_total_iff_length_witness :
    (ImageWrapper.new 1 1).update_data 5 [9, 9, 9, 9] =
      some { ImageWrapper.new 1 1 with
              frame_id := 5, img_buffer := [9, 9, 9, 9] } :=
  (update_data_total_iff_length 1 1 5 (ImageWrapper.new 1 1) [9, 9, 9, 9]
    (by decide)).1 (by decide)

/-! ### C9 — empty registry is a no-op -/

/-- Claim C9: if the registry map is empty when the readback step runs, the
step returns immediately: no buffer is mapped (map count `0`), nothing is
published, the registry is left unchanged (still empty), and no error or
panic is signalled (the result is `some`). -/
theorem save_buffer_empty_registry_noop (counter : Nat)
    (bundles : List BundleInput) :
    save_buffer_as_resource counter bundles [] =
      some ((counter + 1) % u64Mod, [], 0) := rfl

/-! ### C10 — `setup_render_target` registers a zeroed placeholder -/

/-- Claim C10: immediately after `setup_render_target` registers a channel,
the registry holds an entry under the channel name whose `frame_id` is `0`
and whose pixel buffer is the all-zero RGBA8 image of the computed atlas size
(`4 * atlas_width * atlas_height` zero bytes), so a reader running before the
first readback observes this defined zeroed placeholder. -/
theorem setup_render_target_registers_placeholder (name : String)
    (reg : Registry) (vs : Nat × Nat) (nv : Nat) :
    ∃ w, lookupReg (setup_render_target name reg vs nv).1 name = some w ∧
      w.frame_id = 0 ∧
      w.img_buffer = List.replicate (4 * w.width * w.height) 0 ∧
      w.width = (calculate_grid_dimensions vs.1 vs.2 nv).1.1 % u32Mod ∧
      w.height = (calculate_grid_dimensions vs.1 vs.2 nv).1.2 % u32Mod :=
  ⟨_, lookupReg_insertReg_self _ _ _, rfl, rfl, rfl, rfl⟩

/-! ### C6 — padding strip -/

theorem chunks_nil (size : Nat) : chunks size [] = [] := by
  rw [chunks]; simp

theorem chunks_cons (size : Nat) (l : List Nat) (h : l ≠ []) (hs : size ≠ 0) :
    chunks size l = l.take size :: chunks size (l.drop size) := by
  rw [chunks]; simp [h, hs]

theorem unpadSpec_length (bpr pbr : Nat) (hle : bpr ≤ pbr) :
    ∀ (h : Nat) (bytes : List Nat), bytes.length = pbr * h →
      (unpadSpec bpr pbr h bytes).length = h * bpr := by
  intro h
  induction h with
  | zero => intro bytes _; simp [unpadSpec]
  | succ h ih =>
      intro bytes hlen
      have hbytes : pbr ≤ bytes.length := by
        rw [hlen, Nat.mul_succ]; omega
      have htake : (bytes.take bpr).length = bpr := by
        simp [List.length_take]; omega
      have hdrop : (bytes.drop pbr).length = pbr * h := by
        simp [List.length_drop, hlen, Nat.mul_succ]
      simp only [unpadSpec, List.length_append, htake, ih _ hdrop,
        Nat.succ_mul]
      omega

theorem unpadSpec_self (bpr : Nat) :
    ∀ (h : Nat) (bytes : List Nat), bytes.length = bpr * h →
      unpadSpec bpr bpr h bytes = bytes := by
  intro h
  induction h with
  | zero =>
      intro bytes hlen
      have : bytes = [] := List.eq_nil_of_length_eq_zero (by simpa using hlen)
      simp [this, unpadSpec]
  | succ h ih =>
      intro bytes hlen
      have hdrop : (bytes.drop bpr).length = bpr * h := by
        simp [List.length_drop, hlen, Nat.mul_succ]
      simp only [unpadSpec, ih _ hdrop, List.take_append_drop]

theorem strip_padding_core (bpr pbr : Nat) (hp : 0 < pbr) (hle : bpr ≤ pbr) :
    ∀ (h : Nat) (bytes : List Nat), bytes.length = pbr * h →
      (mapMOpt (takeRow bpr) (chunks pbr bytes)).map List.flatten =
        some (unpadSpec bpr pbr h bytes) := by
  intro h
  induction h with
  | zero =>
      intro bytes hlen
      have : bytes = [] := List.eq_nil_of_length_eq_zero (by simpa using hlen)
      simp [this, chunks_nil, mapMOpt, unpadSpec]
  | succ h ih =>
      intro bytes hlen
      have hpbr : pbr ≤ bytes.length := by
        rw [hlen, Nat.mul_succ]; omega
      have hne : bytes ≠ [] := by
        intro e
        rw [e] at hpbr
        simp at hpbr
        omega
      have hdrop : (bytes.drop pbr).length = pbr * h := by
        simp [List.length_drop, hlen, Nat.mul_succ]
      have htakelen : (bytes.take pbr).length = pbr := by
        simp [List.length_take]; omega
      have hrow : takeRow bpr (bytes.take pbr) = some (bytes.take bpr) := by
        rw [takeRow, if_pos (by rw [htakelen]; exact hle), List.take_take,
          Nat.min_def, if_pos hle]
      have hrest := ih _ hdrop
      rw [chunks_cons pbr bytes hne (Nat.pos_iff_ne_zero.mp hp)]
      cases hm : mapMOpt (takeRow bpr) (chunks pbr (bytes.drop pbr)) with
      | none => rw [hm] at hrest; simp at hrest
      | some rows =>
          rw [hm] at hrest
          have hflat : rows.flatten = unpadSpec bpr pbr h (bytes.drop pbr) := by
            simpa using hrest
          simp [mapMOpt, hrow, hm, unpadSpec, hflat]

/-- Claim C6: for every `height ≥ 1`, `bytes_per_row ≤ padded_bytes_per_row`
with `padded_bytes_per_row > 0`, applying the padding-strip step to a mapped
buffer of length `padded_bytes_per_row * height` succeeds and yields exactly
`height * bytes_per_row` bytes whose content is, for each row in order, the
first `bytes_per_row` bytes of that row's `padded_bytes_per_row`-byte chunk;
when the two strides are equal the buffer is passed through unchanged. -/
theorem strip_padding_round_trip (bpr pbr height : Nat) (bytes : List Nat)
    (h1 : 1 ≤ height) (h2 : bpr ≤ pbr) (h3 : 0 < pbr)
    (hlen : bytes.length = pbr * height) :
    strip_padding bpr pbr bytes = some (unpadSpec bpr pbr height bytes) ∧
    (unpadSpec bpr pbr height bytes).length = height * bpr ∧
    (bpr = pbr → strip_padding bpr pbr bytes = some bytes) := by
  refine ⟨?_, unpadSpec_length bpr pbr h2 height bytes hlen, ?_⟩
  · by_cases he : bpr = pbr
    · subst he
      simp only [strip_padding, ne_eq, not_true_eq_false, if_neg,
        not_false_eq_true, if_false]
      rw [unpadSpec_self bpr height bytes hlen]
    · rw [strip_padding, if_pos he]
      exact strip_padding_core bpr pbr h3 h2 height bytes hlen
  · intro he
    rw [strip_padding, if_neg (by simp [he])]

/-- Witness for C6 at a concrete input: `bytes_per_row = 2`,
`padded_bytes_per_row = 4`, `height = 2` on an 8-byte buffer. -/
theorem strip_padding_round_trip_witness :
    strip_padding 2 4 [0, 1, 2, 3, 4, 5, 6, 7] =
      some (unpadSpec 2 4 2 [0, 1, 2, 3, 4, 5, 6, 7]) ∧
    (unpadSpec 2 4 2 [0, 1, 2, 3, 4, 5, 6, 7]).length = 2 * 2 ∧
    (2 = 4 → strip_padding 2 4 [0, 1, 2, 3, 4, 5, 6, 7] =
      some [0, 1, 2, 3, 4, 5, 6, 7]) :=
  strip_padding_round_trip 2 4 2 [0, 1, 2, 3, 4, 5, 6, 7]
    (by decide) (by decide) (by decide) (by decide)

/-! ### C5 — grid choice and viewport placement -/

theorem sqrtCeilGo_spec (n : Nat) :
    ∀ fuel c, n ≤ (c + fuel) * (c + fuel) → (∀ d, d < c → d * d < n) →
      n ≤ sqrtCeilGo n fuel c * sqrtCeilGo n fuel c ∧
        ∀ d, d < sqrtCeilGo n fuel c → d * d < n := by
  intro fuel
  induction fuel with
  | zero =>
      intro c h hb
      rw [sqrtCeilGo]
      exact ⟨by simpa using h, hb⟩
  | succ fuel ih =>
      intro c h hb
      by_cases hc : n ≤ c * c
      · rw [sqrtCeilGo, if_pos hc]
        exact ⟨hc, hb⟩
      · rw [sqrtCeilGo, if_neg hc]
        refine ih (c + 1) ?_ ?_
        · have : c + 1 + fuel = c + (fuel + 1) := by omega
          rw [this]; exact h
        · intro d hd
          rcases Nat.lt_succ_iff_lt_or_eq.mp hd with hd' | hd'
          · exact hb d hd'
          · subst hd'; exact Nat.lt_of_not_le hc

theorem findCeilSqrt_spec (n : Nat) :
    n ≤ findCeilSqrt n * findCeilSqrt n ∧
      ∀ d, d < findCeilSqrt n → d * d < n := by
  refine sqrtCeilGo_spec n n 0 ?_ ?_
  · cases n with
    | zero => simp
    | succ m =>
        simpa using Nat.le_mul_of_pos_left (m + 1) (Nat.succ_pos m)
  · intro d hd; omega

theorem gridCols_pos (nv : Nat) (h : 1 ≤ nv) : 0 < gridCols nv := by
  rcases Nat.eq_zero_or_pos (gridCols nv) with hz | hp
  · have := (findCeilSqrt_spec nv).1
    rw [gridCols] at hz
    rw [hz] at this
    omega
  · exact hp

/-- `cols = ⌈√num_views⌉`: it is the least `c` with `num_views ≤ c * c`. -/
theorem gridCols_spec (nv : Nat) (h : 1 ≤ nv) :
    nv ≤ gridCols nv * gridCols nv ∧
      (gridCols nv - 1) * (gridCols nv - 1) < nv := by
  have hs := findCeilSqrt_spec nv
  have hp := gridCols_pos nv h
  exact ⟨hs.1, hs.2 _ (by rw [gridCols] at hp ⊢; omega)⟩

theorem ceilDivFloat_ge (nv cols : Nat) (hc : 0 < cols) (hnv : 1 ≤ nv) :
    nv ≤ cols * ceilDivFloat nv cols := by
  have hq : ceilDivFloat nv cols = (nv - 1) / cols + 1 := by
    rw [ceilDivFloat, if_neg (by omega)]
    have : nv + cols - 1 = (nv - 1) + cols := by omega
    rw [this, Nat.add_div_right _ hc]
  have h3 : nv - 1 < ((nv - 1) / cols + 1) * cols :=
    (Nat.div_lt_iff_lt_mul hc).mp (Nat.lt_succ_self _)
  rw [hq, Nat.mul_comm]
  omega

theorem reduceRows_spec (cols nv : Nat) (hnv : 1 ≤ nv) :
    ∀ r, nv ≤ cols * r →
      nv ≤ cols * reduceRows cols nv r ∧
        cols * (reduceRows cols nv r - 1) < nv := by
  intro r
  induction r with
  | zero => intro h; simp at h; omega
  | succ r ih =>
      intro h
      by_cases hr : nv ≤ cols * r
      · simpa [reduceRows, hr] using ih hr
      · rw [reduceRows, if_neg hr]
        refine ⟨h, ?_⟩
        simpa using Nat.lt_of_not_le hr

/-- `rows` is minimal: `cols * rows ≥ num_views` and
`cols * (rows - 1) < num_views`. -/
theorem gridRows_spec (nv : Nat) (h : 1 ≤ nv) :
    nv ≤ gridCols nv * gridRows nv ∧
      gridCols nv * (gridRows nv - 1) < nv := by
  have hc := gridCols_pos nv h
  exact reduceRows_spec (gridCols nv) nv h _ (ceilDivFloat_ge nv _ hc h)

/-- Claim C5: for every `num_views ≥ 1` (and any view sizes whose row/column
products fit in `u32`, as on all reachable inputs), the Layout Calculator
chooses `cols = ⌈√num_views⌉` (the least `c` with `num_views ≤ c²`), chooses
`rows` minimal with `cols * rows ≥ num_views` (equivalently
`cols * (rows - 1) < num_views`), and places viewport `i` (0-indexed,
row-major) at `((i % cols) * view_width, (i / cols) * view_height)`. -/
theorem grid_dimensions_choice (vw vh nv : Nat) (h1 : 1 ≤ nv)
    (hw : gridCols nv * vw < u32Mod) (hh : gridRows nv * vh < u32Mod) :
    (nv ≤ gridCols nv * gridCols nv ∧
      (gridCols nv - 1) * (gridCols nv - 1) < nv) ∧
    (nv ≤ gridCols nv * gridRows nv ∧
      gridCols nv * (gridRows nv - 1) < nv) ∧
    (calculate_grid_dimensions vw vh nv).2 =
      (List.range nv).map fun i =>
        ((i % gridCols nv) * vw, (i / gridCols nv) * vh) := by
  refine ⟨gridCols_spec nv h1, gridRows_spec nv h1, ?_⟩
  have hc := gridCols_pos nv h1
  have hrows := (gridRows_spec nv h1).1
  simp only [calculate_grid_dimensions]
  apply List.map_congr_left
  intro i hi
  have hi' : i < nv := List.mem_range.mp hi
  have hmod : i % gridCols nv * vw < u32Mod :=
    lt_of_le_of_lt
      (Nat.mul_le_mul (Nat.le_of_lt (Nat.mod_lt i hc)) (Nat.le_refl vw)) hw
  have hdivlt : i / gridCols nv < gridRows nv :=
    (Nat.div_lt_iff_lt_mul hc).mpr
      (lt_of_lt_of_le hi' (by rw [Nat.mul_comm]; exact hrows))
  have hdiv : i / gridCols nv * vh < u32Mod :=
    lt_of_le_of_lt (Nat.mul_le_mul (Nat.le_of_lt hdivlt) (Nat.le_refl vh)) hh
  simp [Nat.mod_eq_of_lt hmod, Nat.mod_eq_of_lt hdiv]

/-- Witness for C5 at the spec's own scenario
`num_views = 4, view_width = 200, view_height = 50` (`cols = rows = 2`,
offsets `[(0,0), (200,0), (0,50), (200,50)]`). -/
theorem grid_dimensions_choice_witness :
    ((4 ≤ gridCols 4 * gridCols 4 ∧
      (gridCols 4 - 1) * (gridCols 4 - 1) < 4) ∧
    (4 ≤ gridCols 4 * gridRows 4 ∧
      gridCols 4 * (gridRows 4 - 1) < 4) ∧
    (calculate_grid_dimensions 200 50 4).2 =
      (List.range 4).map fun i =>
        ((i % gridCols 4) * 200, (i / gridCols 4) * 50)) ∧
    (calculate_grid_dimensions 200 50 4).2 =
      [(0, 0), (200, 0), (0, 50), (200, 50)] :=
  ⟨grid_dimensions_choice 200 50 4 (by decide) (by decide) (by decide),
    by decide⟩

/-! ### C7 — per-channel `frame_id` monotonicity -/

/-- Relation between the registry before and after one readback pass with
frame id `fid`: every name resolves to either its old snapshot or a snapshot
freshly stamped with `fid`. -/
def StepRel (fid : Nat) (reg reg' : Registry) : Prop :=
  ∀ name,
    lookupReg reg' name = lookupReg reg name ∨
    (∃ w', lookupReg reg' name = some w' ∧
      (lookupReg reg name).isSome ∧ w'.frame_id = fid)

theorem StepRel.refl (fid : Nat) (reg : Registry) : StepRel fid reg reg :=
  fun _ => Or.inl rfl

theorem StepRel.trans (fid : Nat) (reg₀ reg₁ reg₂ : Registry)
    (h1 : StepRel fid reg₀ reg₁) (h2 : StepRel fid reg₁ reg₂) :
    StepRel fid reg₀ reg₂ := by
  intro name
  rcases h2 name with h2' | ⟨w', hw', hsome, hfid⟩
  · rw [h2']; exact h1 name
  · right
    refine ⟨w', hw', ?_, hfid⟩
    rcases h1 name with h1' | ⟨w'', hw'', hsome', _⟩
    · rw [h1'] at hsome; exact hsome
    · exact hsome'

theorem update_data_frame_id (w : ImageWrapper) (fid : Nat)
    (bytes : List Nat) (w' : ImageWrapper)
    (h : w.update_data fid bytes = some w') : w'.frame_id = fid := by
  rw [ImageWrapper.update_data] at h
  split at h
  · cases h; rfl
  · cases h

theorem processPair_step_rel (fid : Nat) (reg : Registry)
    (p : Option (List Nat) × BundleInput) (reg' : Registry)
    (h : processPair fid reg p = some reg') : StepRel fid reg reg' := by
  rw [processPair] at h
  match hp : p.1 with
  | none => rw [hp] at h; dsimp only at h; cases h
  | some image_bytes =>
      rw [hp] at h
      dsimp only at h
      match hsrc : p.2.source with
      | none =>
          rw [hsrc] at h
          dsimp only at h
          cases h
          exact StepRel.refl fid reg
      | some s =>
          rw [hsrc] at h
          dsimp only at h
          cases hstrip : strip_padding s.bytes_per_row s.padded_bytes_per_row
              image_bytes with
          | none => rw [hstrip] at h; cases h
          | some bytes =>
              rw [hstrip] at h
              simp only [Option.some_bind] at h
              match hlook : lookupReg reg p.2.name with
              | none =>
                  rw [hlook] at h
                  dsimp only at h
                  cases h
                  exact StepRel.refl fid reg
              | some w =>
                  rw [hlook] at h
                  dsimp only at h
                  cases hupd : w.update_data fid bytes with
                  | none => rw [hupd] at h; cases h
                  | some w' =>
                      rw [hupd] at h
                      simp only [Option.map_some'] at h
                      cases h
                      intro name
                      by_cases hn : p.2.name = name
                      · subst hn
                        right
                        exact ⟨w', lookupReg_insertReg_self _ _ _,
                          by rw [hlook]; rfl,
                          update_data_frame_id w fid bytes w' hupd⟩
                      · left
                        exact lookupReg_insertReg_other _ _ _ _ hn


theorem foldProcess_step_rel (fid : Nat) :
    ∀ (pairs : List (Option (List Nat) × BundleInput)) (reg reg' : Registry),
      foldProcess fid reg pairs = some reg' → StepRel fid reg reg' := by
  intro pairs
  induction pairs with
  | nil =>
      intro reg reg' h
      rw [foldProcess] at h
      cases h
      exact StepRel.refl fid reg
  | cons p rest ih =>
      intro reg reg' h
      rw [foldProcess] at h
      cases hp : processPair fid reg p with
      | none => rw [hp] at h; cases h
      | some reg₁ =>
          rw [hp] at h
          simp only [Option.some_bind] at h
          exact StepRel.trans fid reg reg₁ reg'
            (processPair_step_rel fid reg p reg₁ hp) (ih reg₁ reg' h)

theorem save_buffer_step_rel (counter : Nat) (bundles : List BundleInput)
    (reg : Registry) (fid : Nat) (reg' : Registry) (cnt : Nat)
    (h : save_buffer_as_resource counter bundles reg = some (fid, reg', cnt)) :
    fid = (counter + 1) % u64Mod ∧ StepRel fid reg reg' := by
  cases reg with
  | nil =>
      rw [save_buffer_as_resource] at h
      cases h
      exact ⟨rfl, StepRel.refl _ _⟩
  | cons p rest =>
      simp only [save_buffer_as_resource] at h
      cases hf : foldProcess ((counter + 1) % u64Mod) (p :: rest)
          ((futuresOf bundles).zip bundles) with
      | none => rw [hf] at h; cases h
      | some reg₁ =>
          rw [hf] at h
          simp only [Option.map_some'] at h
          cases h
          exact ⟨rfl, foldProcess_step_rel _ _ _ _ hf⟩

theorem step_rel_mono (fid counter : Nat) (reg reg' : Registry)
    (hrel : StepRel fid reg reg')
    (hinv : ∀ name w, lookupReg reg name = some w → w.frame_id ≤ counter)
    (hfid : counter < fid) :
    (∀ name w w', lookupReg reg name = some w →
      lookupReg reg' name = some w' → (w' = w ∨ w.frame_id < w'.frame_id)) ∧
    (∀ name w', lookupReg reg' name = some w' → w'.frame_id ≤ fid) := by
  constructor
  · intro name w w' hw hw'
    rcases hrel name with he | ⟨w'', hw'', _, hfid'⟩
    · rw [he, hw] at hw'
      cases hw'
      exact Or.inl rfl
    · rw [hw''] at hw'
      cases hw'
      exact Or.inr (by rw [hfid']; exact lt_of_le_of_lt (hinv name w hw) hfid)
  · intro name w' hw'
    rcases hrel name with he | ⟨w'', hw'', _, hfid'⟩
    · rw [he] at hw'
      exact le_of_lt (lt_of_le_of_lt (hinv name w' hw') hfid)
    · rw [hw''] at hw'
      cases hw'
      rw [hfid']

/-- Claim C7: over any sequence of frames processed by the readback step, the
`frame_id` stored in a channel's registry snapshot is monotonically
non-decreasing — the final snapshot is either the untouched initial one or
carries a strictly greater `frame_id` than the initial one (every publish
stamps the incremented frame counter, which exceeds every previously stored
id).  The hypotheses say that stored ids do not exceed the current counter
(true from setup, where they start at `0`) and that the `u64` counter does
not wrap during the run. -/
theorem frame_id_monotone (frames : List (List BundleInput)) :
    ∀ (counter : Nat) (reg : Registry) (c' : Nat) (reg' : Registry),
      (∀ name w, lookupReg reg name = some w → w.frame_id ≤ counter) →
      counter + frames.length < u64Mod →
      runFrames counter reg frames = some (c', reg') →
      ∀ name w w', lookupReg reg name = some w →
        lookupReg reg' name = some w' →
        w' = w ∨ w.frame_id < w'.frame_id := by
  induction frames with
  | nil =>
      intro counter reg c' reg' hinv hb hrun name w w' hw hw'
      rw [runFrames] at hrun
      cases hrun
      rw [hw] at hw'
      cases hw'
      exact Or.inl rfl
  | cons f fs ih =>
      intro counter reg c' reg' hinv hb hrun name w w' hw hw'
      rw [runFrames] at hrun
      cases hs : save_buffer_as_resource counter f reg with
      | none => rw [hs] at hrun; cases hrun
      | some r =>
          obtain ⟨fid, reg₁, cnt⟩ := r
          rw [hs] at hrun
          simp only [Option.some_bind] at hrun
          obtain ⟨hfid, hrel⟩ := save_buffer_step_rel counter f reg fid reg₁ cnt hs
          simp only [List.length_cons] at hb
          have hfideq : fid = counter + 1 := by
            rw [hfid]
            exact Nat.mod_eq_of_lt (by omega)
          subst hfideq
          have hmono := step_rel_mono (counter + 1) counter reg reg₁ hrel hinv
            (Nat.lt_succ_self counter)
          obtain ⟨w₁, hw₁⟩ : ∃ w₁, lookupReg reg₁ name = some w₁ := by
            rcases hrel name with he | ⟨w₁, hw₁, _, _⟩
            · exact ⟨w, by rw [he]; exact hw⟩
            · exact ⟨w₁, hw₁⟩
          have h12 := hmono.1 name w w₁ hw hw₁
          have h23 := ih (counter + 1) reg₁ c' reg' hmono.2 (by omega) hrun
            name w₁ w' hw₁ hw'
          rcases h12 with h12 | h12 <;> rcases h23 with h23 | h23
          · exact Or.inl (by rw [h23, h12])
          · exact Or.inr (by rw [h12] at h23; exact h23)
          · exact Or.inr (by rw [h23]; exact h12)
          · exact Or.inr (lt_trans h12 h23)

/-- Witness for C7: a one-frame run starting from the freshly registered
`1 × 1` channel `"cam"` (stored `frame_id = 0`), publishing once; the final
snapshot either equals the initial one or has a strictly greater `frame_id`
(here it is stamped `1 > 0`). -/
theorem frame_id_monotone_witness :
    (⟨1, 1, [9, 9, 9, 9], 1⟩ : ImageWrapper) = ImageWrapper.new 1 1 ∨
      (ImageWrapper.new 1 1).frame_id <
        (⟨1, 1, [9, 9, 9, 9], 1⟩ : ImageWrapper).frame_id :=
  frame_id_monotone [[⟨"cam", some ⟨some [9, 9, 9, 9], 4, 4⟩⟩]]
    0 [("cam", ImageWrapper.new 1 1)] 1
    [("cam", ⟨1, 1, [9, 9, 9, 9], 1⟩)]
    (fun name w h => by
      rw [lookupReg_singleton "cam" (ImageWrapper.new 1 1) name w h]
      decide)
    (by decide) (by decide) "cam" (ImageWrapper.new 1 1)
    ⟨1, 1, [9, 9, 9, 9], 1⟩
    (by decide) (by decide)

/-! ### C4 — map error handling -/

theorem foldProcess_none_of_err (fid : Nat) :
    ∀ (pairs : List (Option (List Nat) × BundleInput)) (b : BundleInput),
      (none, b) ∈ pairs → ∀ reg, foldProcess fid reg pairs = none := by
  intro pairs b hmem
  induction pairs with
  | nil => cases hmem
  | cons p rest ih =>
      intro reg
      rcases List.mem_cons.mp hmem with hp | hp
      · rw [foldProcess, ← hp]
        rfl
      · rw [foldProcess]
        cases hproc : processPair fid reg p with
        | none => rfl
        | some reg₁ =>
            simp only [Option.some_bind]
            exact ih hp reg₁

theorem mem_zip_of_mem_left {α β : Type} :
    ∀ (l₁ : List α) (l₂ : List β) (x : α), l₁.length ≤ l₂.length →
      x ∈ l₁ → ∃ y, (x, y) ∈ l₁.zip l₂ := by
  intro l₁
  induction l₁ with
  | nil => intro l₂ x _ hx; cases hx
  | cons a l ih =>
      intro l₂ x hlen hx
      cases l₂ with
      | nil => simp at hlen
      | cons b l₂' =>
          rcases List.mem_cons.mp hx with hx | hx
          · exact ⟨b, by rw [hx]; exact List.mem_cons_self _ _⟩
          · obtain ⟨y, hy⟩ := ih l₂' x (by simpa using hlen) hx
            exact ⟨y, List.mem_cons_of_mem _ hy⟩

theorem err_mem_futures (bundles : List BundleInput) (b : BundleInput)
    (s : SourceInput) (hb : b ∈ bundles) (hs : b.source = some s)
    (hm : s.mapResult = none) : none ∈ futuresOf bundles := by
  rw [futuresOf]
  exact List.mem_filterMap.mpr ⟨b, hb, by rw [hs, Option.map_some', hm]⟩

/-- Claim C4 (counterexample): a single channel `"cam"` whose buffer map
completes with an error makes the readback step panic (`none`) via
`block_on(future).unwrap().unwrap()` — it does not retain-and-continue. -/
theorem save_buffer_map_error_counterexample :
    save_buffer_as_resource 0 [⟨"cam", some ⟨none, 4, 4⟩⟩]
      [("cam", ImageWrapper.new 1 1)] = none := by
  decide

/-- Claim C4 (amended): if the asynchronous buffer map of any channel with a
resolvable source completes with an error and the registry is non-empty, the
readback step panics on the `unwrap` of that result, aborting the frame
instead of continuing; the erroring channel's snapshot is never overwritten
(the panic precedes any registry write for it). -/
theorem save_buffer_map_error_panics (counter : Nat)
    (bundles : List BundleInput) (reg : Registry) (b : BundleInput)
    (s : SourceInput) (hb : b ∈ bundles) (hs : b.source = some s)
    (hm : s.mapResult = none) (hreg : reg ≠ []) :
    save_buffer_as_resource counter bundles reg = none := by
  have hfut : none ∈ futuresOf bundles := err_mem_futures bundles b s hb hs hm
  have hlen : (futuresOf bundles).length ≤ bundles.length := by
    rw [futuresOf]
    exact List.length_filterMap_le _ _
  obtain ⟨c, hc⟩ := mem_zip_of_mem_left (futuresOf bundles) bundles none hlen hfut
  cases reg with
  | nil => exact absurd rfl hreg
  | cons p rest =>
      simp only [save_buffer_as_resource]
      rw [foldProcess_none_of_err ((counter + 1) % u64Mod)
        ((futuresOf bundles).zip bundles) c hc (p :: rest)]
      rfl

/-- Witness for C4 (amended) at a concrete input. -/
theorem save_buffer_map_error_panics_witness :
    save_buffer_as_resource 7 [⟨"cam", some ⟨none, 4, 4⟩⟩]
      [("cam", ImageWrapper.new 1 1)] = none :=
  save_buffer_map_error_panics 7 [⟨"cam", some ⟨none, 4, 4⟩⟩]
    [("cam", ImageWrapper.new 1 1)] ⟨"cam", some ⟨none, 4, 4⟩⟩
    ⟨none, 4, 4⟩ (by decide) rfl rfl (by decide)

end BevyBasics
